import Mathlib

/-!
Verification of the multi-format dataset ingestion and profiling pipeline
of `src/app.py` (functions `process_csv_file`, `process_xpt_file`,
`process_excel_file`, `process_zip_folder`, `analyze_dataframe`, and the
CSV export surface `DataFrame.to_csv` / `pd.read_csv`).

The pandas `DataFrame` produced by the loaders is embedded as an ordered
list of named columns, each a list of typed cells (numeric value, text,
boolean, or the missing marker NaN/None).  Numeric cells are rationals:
every IEEE double that pandas stores is a dyadic rational, so `ℚ` is an
exact superset of the values the code manipulates.  Library calls that
live outside the repository (the pandas parsers, `zipfile`) are embedded
either concretely (the CSV byte-level parser and printer, modelled from
pandas' documented defaults) or as explicit `Except`-valued parameters
whose outcomes are quantified over.
-/

deriving instance DecidableEq for Except

namespace App

/-- A single cell of a loaded DataFrame: numeric, text, boolean, or the
missing marker (pandas NaN/None). -/
inductive Cell where
  | num (q : ℚ)
  | str (s : String)
  | boolv (b : Bool)
  | missing
deriving DecidableEq, Repr

/-- A named column: `name` with its cells in row order. -/
structure Col where
  name : String
  cells : List Cell
deriving DecidableEq, Repr

/-- A DataFrame is an ordered list of named columns. -/
abbrev DataFrame := List Col

/-- `len(df)`: the number of rows, read off the first column (0 for a
column-less frame), matching pandas' row count for frames whose columns
all have equal length. -/
def nRows : DataFrame → Nat
  | [] => 0
  | c :: _ => c.cells.length

/-- Well-formedness invariant of a loaded DataFrame: all columns have the
same length (the row-count invariant of the data model). -/
def WF (df : DataFrame) : Prop :=
  ∀ c ∈ df, c.cells.length = nRows df

instance (df : DataFrame) : Decidable (WF df) := by
  unfold WF; infer_instance

/-- Row `i` of the frame, as the tuple of the `i`-th cell of every column
(missing marker as fallback; never hit on well-formed frames). -/
def rowAt (df : DataFrame) (i : Nat) : List Cell :=
  df.map fun c => c.cells.getD i Cell.missing

/-- The frame viewed as its list of row tuples. -/
def rowsOf (df : DataFrame) : List (List Cell) :=
  (List.range (nRows df)).map (rowAt df)

/-- `df.duplicated().sum()`: scan the rows front to back, counting each
row already seen earlier (pandas marks every occurrence after the first;
NaN cells compare equal to each other, as pandas' duplicate detection
does). -/
def dupAux (seen : List (List Cell)) : List (List Cell) → Nat
  | [] => 0
  | r :: rs => (if r ∈ seen then 1 else 0) + dupAux (r :: seen) rs

/-- `df.duplicated().sum()` on the whole frame. -/
def duplicatedSum (df : DataFrame) : Nat :=
  dupAux [] (rowsOf df)

/-- Is this cell the missing marker? -/
def Cell.isMissing : Cell → Bool
  | .missing => true
  | _ => false

/-- `df[col].isnull().sum()`: missing-cell count of one column. -/
def colMissing (c : Col) : Nat :=
  c.cells.countP Cell.isMissing

/-- `df.isnull().sum().sum()`: total missing-cell count of the frame. -/
def totalMissing (df : DataFrame) : Nat :=
  (df.map colMissing).sum

/-- The per-column value of `(df.isnull().sum() / len(df)) * 100`.
When `len(df) = 0` pandas' integer-by-zero division `0 / 0` yields NaN
(not 0); NaN is embedded as `none`. -/
def missingPercent (df : DataFrame) (c : Col) : Option ℚ :=
  if nRows df = 0 then none
  else some ((colMissing c : ℚ) / (nRows df : ℚ) * 100)

/-- One row of the missing-values table: column name, `Missing Count`,
`Missing Percentage`. -/
abbrev MissingRow := String × Nat × Option ℚ

/-- Structural insertion sort, descending by the `Missing Count` field,
modelling `.sort_values('Missing Count', ascending=False)` (pandas'
sort is a permutation of the rows ordered by the key; the order among
equal keys is not relied upon anywhere). -/
def insertDesc (r : MissingRow) : List MissingRow → List MissingRow
  | [] => [r]
  | x :: xs => if x.2.1 ≤ r.2.1 then r :: x :: xs else x :: insertDesc r xs

/-- Descending insertion sort on missing-value rows. -/
def sortDesc : List MissingRow → List MissingRow
  | [] => []
  | x :: xs => insertDesc x (sortDesc xs)

/-- `df.select_dtypes(include=[np.number])` membership test: a column is
numeric when every cell is a number or the missing marker (pandas'
numeric dtypes; booleans are not `np.number`). -/
def isNumCol (c : Col) : Bool :=
  c.cells.all fun x => match x with
    | .num _ => true
    | .missing => true
    | _ => false

/-- The numeric columns of the frame, in order. -/
def numericCols (df : DataFrame) : List Col :=
  df.filter isNumCol

/-- The numeric value of a single cell. -/
def numOf : Cell → Option ℚ
  | .num a => some a
  | _ => none

/-- The numeric values of a cell pair, when both cells are numeric. -/
def pairNums : Cell × Cell → Option (ℚ × ℚ)
  | (.num a, .num b) => some (a, b)
  | _ => none

/-- The pairwise-complete observations of two columns: rows where both
cells are numeric (pandas' `corr` drops, per pair of columns, the rows
where either value is missing). -/
def numPairs (xs ys : List Cell) : List (ℚ × ℚ) :=
  (xs.zip ys).filterMap pairNums

/-- `n·Σxy − Σx·Σy` over the paired observations: the numerator of the
Pearson correlation coefficient after clearing the `1/n` factors. -/
def pearsonNum (ps : List (ℚ × ℚ)) : ℚ :=
  (ps.length : ℚ) * (ps.map fun p => p.1 * p.2).sum
    - (ps.map Prod.fst).sum * (ps.map Prod.snd).sum

/-- `n·Σx² − (Σx)²`: the first-column factor under the square root in
the Pearson denominator. -/
def pearsonDenX (ps : List (ℚ × ℚ)) : ℚ :=
  (ps.length : ℚ) * (ps.map fun p => p.1 ^ 2).sum - (ps.map Prod.fst).sum ^ 2

/-- `n·Σy² − (Σy)²`: the second-column factor under the square root. -/
def pearsonDenY (ps : List (ℚ × ℚ)) : ℚ :=
  (ps.length : ℚ) * (ps.map fun p => p.2 ^ 2).sum - (ps.map Prod.snd).sum ^ 2

/-- Exact representation of one correlation-matrix entry
`corr(x, y) = (n·Σxy − Σx·Σy) / sqrt((n·Σx² − (Σx)²) · (n·Σy² − (Σy)²))`:
the pair `(numerator, radicand)`; the real value it denotes is
`num / √rad`.  This is pandas' Pearson coefficient with the `1/n`
normalisation factors cleared from numerator and denominator. -/
def corrEntry (xs ys : List Cell) : ℚ × ℚ :=
  (pearsonNum (numPairs xs ys), pearsonDenX (numPairs xs ys) * pearsonDenY (numPairs xs ys))

/-- The real value denoted by a correlation entry. -/
noncomputable def corrValue (xs ys : List Cell) : ℝ :=
  ((corrEntry xs ys).1 : ℝ) / Real.sqrt ((corrEntry xs ys).2 : ℝ)

/-- `df[numeric_cols].corr()`: the full matrix of exact entry
representations over the numeric columns. -/
def corrMatrix (cols : List Col) : List (List (ℚ × ℚ)) :=
  cols.map fun ci => cols.map fun cj => corrEntry ci.cells cj.cells

/-- The analysis record assembled by `analyze_dataframe` (the fields the
specification's claims are about; the presentation-only fields
`Dataset Name`, `Memory Usage`, dtype strings and `describe()` output are
not modelled). -/
structure Analysis where
  shapeRows : Nat
  shapeCols : Nat
  duplicateRows : Nat
  totalMissingValues : Nat
  missingTable : List MissingRow
  correlation : Option (List (List (ℚ × ℚ)))
deriving DecidableEq, Repr

/-- `analyze_dataframe(df)` (src/app.py lines 195-227): basic info
(shape, `df.duplicated().sum()`, `df.isnull().sum().sum()`), the
missing-values table sorted descending by `Missing Count`, and the
correlation matrix, produced only when `len(numeric_cols) > 1`. -/
def analyze_dataframe (df : DataFrame) : Analysis where
  shapeRows := nRows df
  shapeCols := df.length
  duplicateRows := duplicatedSum df
  totalMissingValues := totalMissing df
  missingTable := sortDesc (df.map fun c => (c.name, colMissing c, missingPercent df c))
  correlation :=
    if 1 < (numericCols df).length then some (corrMatrix (numericCols df)) else none

/-! ### Decimal digit strings

`to_csv` serialises every cell to text and `pd.read_csv` re-infers the
values; both directions are embedded concretely at the character level.
Digit printing uses fuel-based structural recursion so that all of it
reduces inside the kernel. -/

/-- The character of a decimal digit. -/
def digitChar (d : Nat) : Char := Char.ofNat (48 + d)

/-- The decimal digit of a character (callers guard with `Char.isDigit`). -/
def charDigit (c : Char) : Nat := c.toNat - 48

/-- Big-endian decimal digits of `n`, empty for 0; `fuel` bounds the
recursion depth (any `fuel ≥ n` is exact). -/
def natCharsAux : Nat → Nat → List Char
  | 0, _ => []
  | fuel + 1, n =>
    if n = 0 then [] else natCharsAux fuel (n / 10) ++ [digitChar (n % 10)]

/-- Big-endian decimal digits of `n` (`"0"` for 0). -/
def natChars (n : Nat) : List Char :=
  if n = 0 then ['0'] else natCharsAux n n

/-- Decimal string of a natural number. -/
def natStr (n : Nat) : String := String.mk (natChars n)

/-- Signed decimal digits of an integer. -/
def intChars (i : ℤ) : List Char :=
  if i < 0 then '-' :: natChars i.natAbs else natChars i.natAbs

/-- The numeric value of a big-endian digit string. -/
def digitsVal (cs : List Char) : Nat :=
  cs.foldl (fun a c => 10 * a + charDigit c) 0

/-- Parse a nonempty all-digit string to its value. -/
def parseNatChars (cs : List Char) : Option Nat :=
  if cs.isEmpty then none
  else if cs.all Char.isDigit then some (digitsVal cs) else none

/-- Split a character list at every occurrence of `sep` (the groups never
contain `sep`; splitting the empty list yields one empty group). -/
def splitOnCh (sep : Char) : List Char → List (List Char)
  | [] => [[]]
  | c :: cs =>
    match splitOnCh sep cs with
    | [] => [[c]]
    | g :: gs => if c = sep then [] :: g :: gs else (c :: g) :: gs

/-- Interleave `sep` between the groups (left inverse of `splitOnCh` on
`sep`-free nonempty group lists). -/
def joinWith (sep : Char) : List (List Char) → List Char
  | [] => []
  | [p] => p
  | p :: q :: ps => p ++ sep :: joinWith sep (q :: ps)

/-- Parse an unsigned decimal numeral with an optional fractional part:
`digits`, `digits.digits`, `.digits` or `digits.` — precisely the
dot-forms pandas' numeric sniffer accepts (at least one digit overall). -/
def parseUnsigned (body : List Char) : Option ℚ :=
  match splitOnCh '.' body with
  | [w] => (parseNatChars w).map fun n => (n : ℚ)
  | [w, f] =>
    if w.all Char.isDigit && f.all Char.isDigit && !(w.isEmpty && f.isEmpty) then
      some (((digitsVal w * 10 ^ f.length + digitsVal f : ℕ) : ℚ) / (10 : ℚ) ^ f.length)
    else none
  | _ => none

/-- Fold an upper-case exponent marker onto the lower-case one. -/
def expChar (c : Char) : Char := if c = 'E' then 'e' else c

/-- Parse an optionally signed exponent. -/
def parseExpInt : List Char → Option ℤ
  | '-' :: t => (parseNatChars t).map fun n => -(n : ℤ)
  | '+' :: t => (parseNatChars t).map fun n => (n : ℤ)
  | t => (parseNatChars t).map fun n => (n : ℤ)

/-- Parse an unsigned numeral with an optional scientific-notation
exponent (`mantissa`, `mantissaEexp` or `mantissaeexp`), as pandas'
numeric sniffer does. -/
def parseUnsignedE (cs : List Char) : Option ℚ :=
  match splitOnCh 'e' (cs.map expChar) with
  | [m] => parseUnsigned m
  | [m, ex] =>
    match parseUnsigned m, parseExpInt ex with
    | some q, some e => some (q * (10 : ℚ) ^ e)
    | _, _ => none
  | _ => none

/-- Parse an optionally signed decimal numeral, exponent allowed: the
fragment of `pd.read_csv`'s numeric sniffing over finite values.
Float infinities (`inf`, `Infinity`, ...) have no image among the `ℚ`
cell values, so they are kept out of the stability predicate via
`isInfToken` instead of being parsed. -/
def parseDec (cs : List Char) : Option ℚ :=
  if cs.head? = some '-' then (parseUnsignedE cs.tail).map fun q => -q
  else if cs.head? = some '+' then parseUnsignedE cs.tail
  else parseUnsignedE cs

/-- The digits of `m` left-padded with zeros to at least `k+1` places. -/
def padChars (k m : Nat) : List Char :=
  List.replicate (k + 1 - (natChars m).length) '0' ++ natChars m

/-- Fractional rendering of the scaled value `m = value · 10^k`:
digits of `m` padded to at least `k+1` places, with the decimal point
inserted `k` places from the right. -/
def fracChars (k : Nat) (m : Nat) : List Char :=
  (padChars k m).take ((padChars k m).length - k)
    ++ '.' :: (padChars k m).drop ((padChars k m).length - k)

/-- Decimal rendering of a rational whose denominator divides a power of
ten (every float pandas writes is such a value): integers print without a
point, other values print with `q.den` fractional digits.  `to_csv`
prints the shortest float representation instead; both re-parse to the
same value, which is all the export contract about cell values uses. -/
def ratChars (q : ℚ) : List Char :=
  if q.den = 1 then intChars q.num
  else
    let scaled := q.num.natAbs * 10 ^ q.den / q.den
    if q.num < 0 then '-' :: fracChars q.den scaled else fracChars q.den scaled

/-- Serialise one cell the way `to_csv` does: numbers in decimal, text
verbatim, booleans as `True`/`False`, missing as the empty field. -/
def printCell : Cell → List Char
  | .num q => ratChars q
  | .str s => s.data
  | .boolv true => "True".data
  | .boolv false => "False".data
  | .missing => []

/-- The full default `na_values` list of `pd.read_csv`: every one of
these fields is read back as a missing marker. -/
def naMarkers : List (List Char) :=
  ["", "#N/A", "#N/A N/A", "#NA", "-1.#IND", "-1.#QNAN", "-NaN", "-nan",
   "1.#IND", "1.#QNAN", "<NA>", "N/A", "NA", "NULL", "NaN", "None",
   "n/a", "nan", "null"].map String.data

/-- Is this field a missing-value marker? -/
def isNAField (f : List Char) : Bool := decide (f ∈ naMarkers)

/-- The float-infinity tokens `pd.read_csv`'s numeric sniffer accepts;
they have no `ℚ` representation, so stable text must avoid them. -/
def infTokens : List (List Char) :=
  ["inf", "-inf", "+inf", "Inf", "-Inf", "+Inf", "INF", "-INF", "+INF",
   "infinity", "-infinity", "+infinity", "Infinity", "-Infinity",
   "+Infinity", "INFINITY", "-INFINITY", "+INFINITY"].map String.data

/-- Is this field a float-infinity token? -/
def isInfToken (f : List Char) : Bool := decide (f ∈ infTokens)

/-- Boolean token recognised by the reader (pandas' parser accepts the
three case variants of each). -/
def boolToken (f : List Char) : Option Bool :=
  if f = "True".data ∨ f = "TRUE".data ∨ f = "true".data then some true
  else if f = "False".data ∨ f = "FALSE".data ∨ f = "false".data then some false
  else none

/-- Column-wise type inference of `pd.read_csv`: if every non-missing
field parses as a number the column is numeric (an all-missing column is
numeric too, pandas' float64 NaN column); otherwise if every non-missing
field is a boolean token the column is boolean; otherwise it is an
object column whose non-missing fields stay text. -/
def inferCol (fields : List (List Char)) : List Cell :=
  let nonNA := fields.filter fun f => !isNAField f
  if nonNA.all fun f => (parseDec f).isSome then
    fields.map fun f => if isNAField f then Cell.missing else Cell.num ((parseDec f).getD 0)
  else if nonNA.all fun f => (boolToken f).isSome then
    fields.map fun f => if isNAField f then Cell.missing else Cell.boolv ((boolToken f).getD true)
  else
    fields.map fun f => if isNAField f then Cell.missing else Cell.str (String.mk f)

/-- `pd.read_csv` on raw characters: split into lines (skipping blank
lines, pandas' `skip_blank_lines=True` default), take the first line as
the header, reject data rows wider than the header (pandas'
`ParserError`), pad narrower rows with missing fields, and run type
inference per column. -/
def readCsvChars (input : List Char) : Except String DataFrame :=
  match (splitOnCh '\n' input).filter (fun l => !l.isEmpty) with
  | [] => .error "No columns to parse from file"
  | header :: dataLines =>
    let names := splitOnCh ',' header
    let rows := dataLines.map (splitOnCh ',')
    if rows.any (fun r => names.length < r.length) then
      .error "Error tokenizing data"
    else
      .ok ((List.range names.length).map fun j =>
        ⟨String.mk (names.getD j []), inferCol (rows.map fun r => r.getD j [])⟩)

/-- `pd.read_csv` on a byte source (bytes embedded as their decoded
characters). -/
def csvParse (s : String) : Except String DataFrame := readCsvChars s.data

/-- One serialised row: the printed cells joined by commas. -/
def rowChars (row : List Cell) : List Char :=
  joinWith ',' (row.map printCell)

/-- `df.to_csv(index=False)`: the comma-joined header line followed by
one comma-joined line per row, each line newline-terminated. -/
def toCsvChars (df : DataFrame) : List Char :=
  (joinWith ',' (df.map fun c => c.name.data) ++ ['\n'])
    ++ ((rowsOf df).map fun r => rowChars r ++ ['\n']).flatten

/-- `df.to_csv(index=False)` as a string. -/
def to_csv (df : DataFrame) : String := String.mk (toCsvChars df)

/-- A text cell the CSV reader hands back verbatim: not one of pandas'
default NA markers, not numeric-looking (plain or scientific notation),
not a float-infinity token, not a boolean token, and free of the
delimiter and line-terminator characters (pandas would otherwise quote
it — quoting is not part of this embedding). -/
def stableStr (s : String) : Bool :=
  !isNAField s.data && (parseDec s.data).isNone && !isInfToken s.data
    && (boolToken s.data).isNone && decide (',' ∉ s.data) && decide ('\n' ∉ s.data)

/-- A numeric cell the decimal printer renders exactly: its denominator
divides a power of ten (true of every IEEE float pandas writes). -/
def cellNumOk : Cell → Bool
  | .num q => decide ((q.den : ℕ) ∣ 10 ^ q.den)
  | .missing => true
  | _ => false

/-- A cell admissible in a boolean column. -/
def cellBoolOk : Cell → Bool
  | .boolv _ => true
  | .missing => true
  | _ => false

/-- A cell admissible in a stable text column. -/
def cellStrOk : Cell → Bool
  | .str s => stableStr s
  | .missing => true
  | _ => false

/-- A type-homogeneous column that survives the CSV round trip: all
numeric (with exactly printable values), all boolean, or all stable
text — missing markers allowed throughout. -/
def colStable (c : Col) : Bool :=
  c.cells.all cellNumOk || c.cells.all cellBoolOk || c.cells.all cellStrOk

/-- The frames for which the CSV export provably round-trips: well
formed with at least one column; names nonempty, delimiter-free and
distinct (pandas mangles duplicate or empty header fields, which is
outside this embedding, so they are excluded); every column stable; and
a single-column frame has no missing cell (its empty field would print
a blank line, which `read_csv` skips). -/
def csvStable (df : DataFrame) : Prop :=
  WF df ∧ df ≠ [] ∧
    (∀ c ∈ df, c.name ≠ "" ∧ ',' ∉ c.name.data ∧ '\n' ∉ c.name.data) ∧
    (df.map Col.name).Nodup ∧
    (∀ c ∈ df, colStable c = true) ∧
    (df.length = 1 → ∀ c ∈ df, ∀ x ∈ c.cells, x ≠ Cell.missing)

instance (df : DataFrame) : Decidable (csvStable df) := by
  unfold csvStable; infer_instance

/-! ### The Format Loader (src/app.py lines 124-193)

Each `process_*` function wraps its library parser in `try/except
Exception` and returns a `(DataFrame | None, message)` pair.  The
library call itself (pd.read_csv / pd.read_excel / xport.to_dataframe /
pd.read_sas / zipfile extraction) can either produce a frame or raise;
that outcome is embedded as an `Except String` value, quantified over
wherever the library is external to the repository. -/

/-- `process_csv_file` success message
`"✅ CSV file loaded successfully: {len(df)} rows, {len(df.columns)} columns"`. -/
def csvOkMsg (df : DataFrame) : String :=
  "✅ CSV file loaded successfully: " ++ natStr (nRows df) ++ " rows, "
    ++ natStr df.length ++ " columns"

/-- `process_csv_file` failure message. -/
def csvErrMsg (e : String) : String := "❌ Error loading CSV: " ++ e

/-- `process_xpt_file` success message. -/
def xptOkMsg (df : DataFrame) : String :=
  "✅ XPT file loaded successfully: " ++ natStr (nRows df) ++ " rows, "
    ++ natStr df.length ++ " columns"

/-- `process_xpt_file` failure message. -/
def xptErrMsg (e : String) : String := "❌ Error loading XPT: " ++ e

/-- `process_excel_file` success message. -/
def excelOkMsg (df : DataFrame) : String :=
  "✅ Excel file loaded successfully: " ++ natStr (nRows df) ++ " rows, "
    ++ natStr df.length ++ " columns"

/-- `process_excel_file` failure message. -/
def excelErrMsg (e : String) : String := "❌ Error loading Excel: " ++ e

/-- `process_csv_file(uploaded_file)` (lines 124-130): `pd.read_csv`
inside `try/except`; on success the frame and a success message, on any
exception `None` and the error message. -/
def process_csv_file (r : Except String DataFrame) : Option DataFrame × String :=
  match r with
  | .ok df => (some df, csvOkMsg df)
  | .error e => (none, csvErrMsg e)

/-- `process_xpt_file(uploaded_file)` (lines 132-145): an inner
`try` attempts `xport.to_dataframe` (outcome `r₁`) and falls back to
`pd.read_sas(format='xport')` (outcome `r₂`) on any inner exception; the
outer `try/except` converts a fallback failure into `(None, message)`. -/
def process_xpt_file (r₁ r₂ : Except String DataFrame) : Option DataFrame × String :=
  match r₁ with
  | .ok df => (some df, xptOkMsg df)
  | .error _ =>
    match r₂ with
    | .ok df => (some df, xptOkMsg df)
    | .error e => (none, xptErrMsg e)

/-- `process_excel_file(uploaded_file)` (lines 147-153). -/
def process_excel_file (r : Except String DataFrame) : Option DataFrame × String :=
  match r with
  | .ok df => (some df, excelOkMsg df)
  | .error e => (none, excelErrMsg e)

/-- The tree of files `zipfile.ZipFile.extractall` unpacks into the
temporary directory, encoded without nested inductives so that every
function on it is structurally recursive: a forest is either empty, a
file followed by its siblings, or a directory (with its own child
forest) followed by its siblings. -/
inductive Fs where
  | nil : Fs
  | file (name content : String) (rest : Fs) : Fs
  | dir (name : String) (children rest : Fs) : Fs
deriving DecidableEq, Repr

/-- The files visited by `os.walk(temp_dir)`: every file of the tree, at
every nesting depth.  (`os.walk` lists each directory's files before
descending; the exact interleaving order across directories is not
modelled — no property below depends on entry order across levels.) -/
def walkFiles : Fs → List (String × String)
  | .nil => []
  | .file n c rest => (n, c) :: walkFiles rest
  | .dir _ children rest => walkFiles children ++ walkFiles rest

/-- The number of files in the tree, at every nesting depth. -/
def countFiles : Fs → Nat
  | .nil => 0
  | .file _ _ rest => 1 + countFiles rest
  | .dir _ children rest => countFiles children + countFiles rest

/-- One entry of `extracted_files`: the `file_info` dict with `name`,
`size` (byte size of the content; bytes embedded as characters), and —
only for names with a supported tabular extension — the outcome of the
parse attempt (`dataframe` on success, `error` on failure).  Entries of
unsupported extension carry neither. -/
structure ZEntry where
  name : String
  size : Nat
  parsed : Option (Except String DataFrame)
deriving DecidableEq, Repr

/-- Does this entry carry a parsed `dataframe`? -/
def ZEntry.hasDataset (e : ZEntry) : Bool :=
  match e.parsed with
  | some (.ok _) => true
  | _ => false

/-- Does this entry carry a per-entry `error`? -/
def ZEntry.hasError (e : ZEntry) : Bool :=
  match e.parsed with
  | some (.error _) => true
  | _ => false

/-- `file.lower().endswith(ext)` on the entry name. -/
def hasExt (name : String) (ext : String) : Bool :=
  ext.data.isSuffixOf (name.data.map Char.toLower)

/-- The per-entry parse dispatch of `process_zip_folder` (lines
175-187): `.csv` via `pd.read_csv` (embedded concretely), `.xpt` via
`pd.read_sas` and `.xlsx`/`.xls` via `pd.read_excel` (external parsers,
passed in as the behaviours `sasP` and `excelP`); any other extension is
not parsed at all. -/
def zipEntry (sasP excelP : String → Except String DataFrame)
    (f : String × String) : ZEntry where
  name := f.1
  size := f.2.length
  parsed :=
    if hasExt f.1 ".csv" then some (csvParse f.2)
    else if hasExt f.1 ".xpt" then some (sasP f.2)
    else if hasExt f.1 ".xlsx" || hasExt f.1 ".xls" then some (excelP f.2)
    else none

/-- `process_zip_folder` success message
`"✅ ZIP folder processed: {len(extracted_files)} files extracted"`. -/
def zipOkMsg (n : Nat) : String :=
  "✅ ZIP folder processed: " ++ natStr n ++ " files extracted"

/-- `process_zip_folder` failure message. -/
def zipErrMsg (e : String) : String := "❌ Error processing ZIP folder: " ++ e

/-- `process_zip_folder(uploaded_file)` (lines 155-193): opening and
extracting the archive can raise (`outer` is that outcome, an `Except`);
on success, `os.walk` enumerates every extracted file and each becomes a
`file_info` entry, with per-entry parse failures recorded in the entry —
never failing the archive as a whole. -/
def process_zip_folder (sasP excelP : String → Except String DataFrame)
    (outer : Except String Fs) : Option (List ZEntry) × String :=
  match outer with
  | .error e => (none, zipErrMsg e)
  | .ok tree =>
    let entries := (walkFiles tree).map (zipEntry sasP excelP)
    (some entries, zipOkMsg entries.length)

/-! ### The analyzer as a state-passing computation

To make the frame property of C9 expressible, each pandas call
`analyze_dataframe` performs is embedded as a function that returns its
result *together with* the frame it leaves behind; the analyzer threads
the frame through the calls in source order.  None of the operations in
the source (`shape`, `duplicated`, `isnull`, `sort_values`,
`select_dtypes`, `corr`) is an in-place operation, so each step returns
the frame it received. -/

/-- `df.shape`. -/
def dfShape (df : DataFrame) : (Nat × Nat) × DataFrame := ((nRows df, df.length), df)

/-- `df.duplicated().sum()`. -/
def dfDuplicated (df : DataFrame) : Nat × DataFrame := (duplicatedSum df, df)

/-- `df.isnull().sum().sum()`. -/
def dfTotalMissing (df : DataFrame) : Nat × DataFrame := (totalMissing df, df)

/-- The `missing_values` table: `pd.DataFrame({'Missing Count': ...,
'Missing Percentage': ...}).sort_values('Missing Count', ascending=False)`. -/
def dfMissingTable (df : DataFrame) : List MissingRow × DataFrame :=
  (sortDesc (df.map fun c => (c.name, colMissing c, missingPercent df c)), df)

/-- The correlation step: `df[numeric_cols].corr()` guarded by
`len(numeric_cols) > 1`. -/
def dfCorr (df : DataFrame) : Option (List (List (ℚ × ℚ))) × DataFrame :=
  ((if 1 < (numericCols df).length then some (corrMatrix (numericCols df)) else none), df)

/-- `analyze_dataframe` with the frame threaded through every library
call in source order, returning the report together with the frame the
call leaves behind. -/
def analyzeSeq (df : DataFrame) : Analysis × DataFrame :=
  let (shape, df₁) := dfShape df
  let (dups, df₂) := dfDuplicated df₁
  let (miss, df₃) := dfTotalMissing df₂
  let (table, df₄) := dfMissingTable df₃
  let (corr, df₅) := dfCorr df₄
  (⟨shape.1, shape.2, dups, miss, table, corr⟩, df₅)

/-! ### Claims C1-C4 and C9 -/

/-- C1: for every supported declared format (csv, excel, xpt, zip) and
every outcome of the underlying library parse, the load operation
returns a definite value — either a loaded frame (for zip: the archive
entry sequence) with its success message, or `None` with a
human-readable error message — and no other shape of result exists, so
no exception crosses the component boundary. -/
theorem claim_C1_loader_definite
    (r r₁ r₂ re : Except String DataFrame)
    (sasP excelP : String → Except String DataFrame) (z : Except String Fs) :
    ((∃ df, process_csv_file r = (some df, csvOkMsg df)) ∨
      (∃ e, process_csv_file r = (none, csvErrMsg e))) ∧
    ((∃ df, process_xpt_file r₁ r₂ = (some df, xptOkMsg df)) ∨
      (∃ e, process_xpt_file r₁ r₂ = (none, xptErrMsg e))) ∧
    ((∃ df, process_excel_file re = (some df, excelOkMsg df)) ∨
      (∃ e, process_excel_file re = (none, excelErrMsg e))) ∧
    ((∃ es, process_zip_folder sasP excelP z = (some es, zipOkMsg es.length)) ∨
      (∃ e, process_zip_folder sasP excelP z = (none, zipErrMsg e))) := by
  refine ⟨?_, ?_, ?_, ?_⟩
  · cases r with
    | ok df => exact .inl ⟨df, rfl⟩
    | error e => exact .inr ⟨e, rfl⟩
  · cases r₁ with
    | ok df => exact .inl ⟨df, rfl⟩
    | error e =>
      cases r₂ with
      | ok df => exact .inl ⟨df, rfl⟩
      | error e => exact .inr ⟨e, rfl⟩
  · cases re with
    | ok df => exact .inl ⟨df, rfl⟩
    | error e => exact .inr ⟨e, rfl⟩
  · cases z with
    | ok tree => exact .inl ⟨_, rfl⟩
    | error e => exact .inr ⟨e, rfl⟩

/-- C2: loading a zero-byte source returns a load error and never a
frame, for every supported format.  The CSV leg is the concrete embedded
`pd.read_csv` (which rejects empty input with `No columns to parse from
file`); for excel, xpt and zip the premise that the external library
parser raises on zero-byte input is the spec-modelled behaviour, taken
as a hypothesis about the parse outcomes. -/
theorem claim_C2_empty_source
    (excelEmpty sas1Empty sas2Empty : Except String DataFrame)
    (zipEmpty : Except String Fs)
    (sasP excelP : String → Except String DataFrame)
    (hx : ∃ e, excelEmpty = .error e)
    (hs₁ : ∃ e, sas1Empty = .error e) (hs₂ : ∃ e, sas2Empty = .error e)
    (hz : ∃ e, zipEmpty = .error e) :
    process_csv_file (csvParse "") =
      (none, csvErrMsg "No columns to parse from file") ∧
    (process_excel_file excelEmpty).1 = none ∧
    (process_xpt_file sas1Empty sas2Empty).1 = none ∧
    (process_zip_folder sasP excelP zipEmpty).1 = none := by
  obtain ⟨ex, hx⟩ := hx
  obtain ⟨es₁, hs₁⟩ := hs₁
  obtain ⟨es₂, hs₂⟩ := hs₂
  obtain ⟨ez, hz⟩ := hz
  subst hx hs₁ hs₂ hz
  exact ⟨rfl, rfl, rfl, rfl⟩

/-- C2 witness: the empty-parse hypotheses instantiated at concrete
error outcomes. -/
theorem claim_C2_empty_source_witness :
    process_csv_file (csvParse "") =
      (none, csvErrMsg "No columns to parse from file") ∧
    (process_excel_file (.error "empty")).1 = none ∧
    (process_xpt_file (.error "empty") (.error "empty")).1 = none ∧
    (process_zip_folder (fun _ => .error "sas") (fun _ => .error "xl")
      (.error "File is not a zip file")).1 = none :=
  claim_C2_empty_source (.error "empty") (.error "empty") (.error "empty")
    (.error "File is not a zip file") (fun _ => .error "sas") (fun _ => .error "xl")
    ⟨"empty", rfl⟩ ⟨"empty", rfl⟩ ⟨"empty", rfl⟩ ⟨"File is not a zip file", rfl⟩

/-- C3: a ZIP archive whose extraction yields one CSV entry the CSV
reader accepts and one it rejects loads to an entry sequence of length
2 with exactly one entry carrying a frame and exactly one carrying an
error, and the overall call takes the success branch (per-entry failures
never fail the archive load). -/
theorem claim_C3_partial_archive
    (sasP excelP : String → Except String DataFrame)
    (n₁ n₂ c₁ c₂ : String) (df : DataFrame) (e : String)
    (hn₁ : hasExt n₁ ".csv" = true) (hn₂ : hasExt n₂ ".csv" = true)
    (hok : csvParse c₁ = .ok df) (hbad : csvParse c₂ = .error e) :
    ∃ entries,
      process_zip_folder sasP excelP (.ok (.file n₁ c₁ (.file n₂ c₂ .nil)))
        = (some entries, zipOkMsg 2) ∧
      entries.length = 2 ∧
      entries.countP ZEntry.hasDataset = 1 ∧
      entries.countP ZEntry.hasError = 1 := by
  refine ⟨[⟨n₁, c₁.length, some (.ok df)⟩, ⟨n₂, c₂.length, some (.error e)⟩], ?_, rfl, ?_, ?_⟩
  · simp [process_zip_folder, walkFiles, zipEntry, hn₁, hn₂, hok, hbad]
  · simp [List.countP, List.countP.go, ZEntry.hasDataset]
  · simp [List.countP, List.countP.go, ZEntry.hasError]

/-- C3 witness: a concrete archive with a well-formed and a malformed
CSV member (the malformed one has a row wider than its header). -/
theorem claim_C3_partial_archive_witness :
    ∃ entries,
      process_zip_folder (fun _ => .error "sas") (fun _ => .error "xl")
        (.ok (.file "good.csv" "a,b\n1,2\n" (.file "bad.csv" "a,b\n1,2,3\n" .nil)))
        = (some entries, zipOkMsg 2) ∧
      entries.length = 2 ∧
      entries.countP ZEntry.hasDataset = 1 ∧
      entries.countP ZEntry.hasError = 1 :=
  claim_C3_partial_archive (fun _ => .error "sas") (fun _ => .error "xl")
    "good.csv" "bad.csv" "a,b\n1,2\n" "a,b\n1,2,3\n"
    [⟨"a", [.num 1]⟩, ⟨"b", [.num 2]⟩] "Error tokenizing data"
    (by decide) (by decide) (by decide) (by decide)

/-- C4 counterexample: the claim says a file nested below the top level
of the unpacked tree produces no ArchiveEntry; but `process_zip_folder`
walks the extracted tree with `os.walk`, which recurses into
subdirectories, so a CSV file inside a subdirectory does produce an
entry (here: an archive whose only file sits one directory down yields
an entry sequence of length 1 carrying that file). -/
theorem claim_C4_counterexample :
    process_zip_folder (fun _ => .error "sas") (fun _ => .error "xl")
      (.ok (.dir "sub" (.file "deep.csv" "a,b\n1,2\n" .nil) .nil))
      = (some [⟨"deep.csv", 8, some (.ok [⟨"a", [.num 1]⟩, ⟨"b", [.num 2]⟩])⟩],
          zipOkMsg 1) := by decide

/-- Auxiliary: the walk of the extracted tree visits exactly
`countFiles` files. -/
theorem length_walkFiles (t : Fs) : (walkFiles t).length = countFiles t := by
  induction t with
  | nil => rfl
  | file n c rest ih => simp [walkFiles, countFiles, ih]; omega
  | dir n ch rest ih₁ ih₂ => simp [walkFiles, countFiles, ih₁, ih₂]

/-- C4 (amended): when loading a ZIP archive the enumeration traverses
the *entire* unpacked tree: every file at every nesting depth produces
exactly one ArchiveEntry, so the entry sequence has one entry per file
of the tree, however deep. -/
theorem claim_C4_amended_walk_all_depths
    (sasP excelP : String → Except String DataFrame) (tree : Fs) :
    process_zip_folder sasP excelP (.ok tree)
      = (some ((walkFiles tree).map (zipEntry sasP excelP)), zipOkMsg (countFiles tree)) ∧
    ((walkFiles tree).map (zipEntry sasP excelP)).length = countFiles tree := by
  constructor
  · simp [process_zip_folder, length_walkFiles]
  · simp [length_walkFiles]

/-- C9: `analyze_dataframe` is pure: threading the frame through every
library call it performs returns the frame unchanged (no in-place
mutation — every column name and cell value is identical before and
after the call), and the report it produces is exactly the value-level
`analyze_dataframe` of its input, so equal inputs always yield equal
reports. -/
theorem claim_C9_analyze_pure (df : DataFrame) :
    analyzeSeq df = (analyze_dataframe df, df) := rfl

/-! ### Claim C6: the duplicate-row count -/

/-- The seen-set scan of `df.duplicated().sum()` counts, below any
initial seen set, exactly the rows that are not the first occurrence of
their value: scan count plus the number of distinct not-yet-seen values
equals the row count. -/
theorem dupAux_add_card (rows : List (List Cell)) :
    ∀ seen, dupAux seen rows + (rows.toFinset \ seen.toFinset).card = rows.length := by
  induction rows with
  | nil => intro seen; simp [dupAux]
  | cons r rs ih =>
    intro seen
    have hstep : dupAux seen (r :: rs)
        = (if r ∈ seen then 1 else 0) + dupAux (r :: seen) rs := rfl
    have hIH := ih (r :: seen)
    have htf : (r :: rs).toFinset = insert r rs.toFinset := List.toFinset_cons
    by_cases h : r ∈ seen
    · have hr : r ∈ seen.toFinset := List.mem_toFinset.mpr h
      have hseen : (r :: seen).toFinset = seen.toFinset := by
        rw [List.toFinset_cons, Finset.insert_eq_self.mpr hr]
      rw [hseen] at hIH
      rw [hstep, if_pos h, htf, Finset.insert_sdiff_of_mem _ hr, List.length_cons]
      omega
    · have hr : r ∉ seen.toFinset := fun hc => h (List.mem_toFinset.mp hc)
      have key : (insert r rs.toFinset \ seen.toFinset).card
          = (rs.toFinset \ (r :: seen).toFinset).card + 1 := by
        rw [List.toFinset_cons (l := seen), Finset.sdiff_insert,
          Finset.insert_sdiff_of_not_mem _ hr]
        by_cases hm : r ∈ rs.toFinset \ seen.toFinset
        · rw [Finset.insert_eq_self.mpr hm, Finset.card_erase_of_mem hm]
          have : 0 < (rs.toFinset \ seen.toFinset).card := Finset.card_pos.mpr ⟨r, hm⟩
          omega
        · rw [Finset.card_insert_of_not_mem hm, Finset.erase_eq_of_not_mem hm]
      rw [hstep, if_neg h, htf, key, List.length_cons]
      omega

/-- C6: the report's duplicate-row count equals the number of rows whose
full value tuple (missing markers included) equals an earlier row's —
every row beyond the first occurrence of its value counts, i.e. the
count is the number of rows minus the number of distinct row values; in
particular the rows `[(1,"x"),(1,"x"),(2,"y")]` yield
`duplicate_row_count = 1`. -/
theorem claim_C6_duplicate_rows :
    (∀ df : DataFrame, (analyze_dataframe df).duplicateRows
        = (rowsOf df).length - (rowsOf df).toFinset.card) ∧
    (analyze_dataframe
        [⟨"a", [.num 1, .num 1, .num 2]⟩,
         ⟨"b", [.str "x", .str "x", .str "y"]⟩]).duplicateRows = 1 := by
  constructor
  · intro df
    have h := dupAux_add_card (rowsOf df) []
    have hle := List.toFinset_card_le (rowsOf df)
    simp only [List.toFinset_nil, Finset.sdiff_empty] at h
    show duplicatedSum df = _
    unfold duplicatedSum
    omega
  · decide

/-! ### Claims C10 and C5: the missing-values analysis -/

/-- Inserting into the descending-sorted table is a permutation of
consing. -/
theorem insertDesc_perm (r : MissingRow) (l : List MissingRow) :
    (insertDesc r l).Perm (r :: l) := by
  induction l with
  | nil => exact List.Perm.refl _
  | cons x xs ih =>
    by_cases h : x.2.1 ≤ r.2.1
    · simp [insertDesc, h]
    · simp only [insertDesc, if_neg h]
      exact (ih.cons x).trans (List.Perm.swap r x xs)

/-- `sort_values` permutes the table rows. -/
theorem sortDesc_perm (l : List MissingRow) : (sortDesc l).Perm l := by
  induction l with
  | nil => exact List.Perm.refl _
  | cons x xs ih => exact (insertDesc_perm x (sortDesc xs)).trans (ih.cons x)

/-- C10: the `Total Missing Values` figure of the report's basic
information equals the sum, over the rows of the report's (sorted)
missing-values table, of the per-column `Missing Count`. -/
theorem claim_C10_total_missing_consistent (df : DataFrame) :
    (analyze_dataframe df).totalMissingValues
      = ((analyze_dataframe df).missingTable.map fun e => e.2.1).sum := by
  have hperm :
      ((analyze_dataframe df).missingTable.map fun e => e.2.1).Perm
        ((df.map fun c => (c.name, colMissing c, missingPercent df c)).map fun e => e.2.1) :=
    (sortDesc_perm _).map _
  rw [hperm.sum_eq]
  show totalMissing df = _
  simp [totalMissing, List.map_map, Function.comp_def]

/-- C5 counterexample: on a zero-row dataset the claim prescribes
`missing_percent = 0`, but the code's `missing_data / len(df)` is
pandas' `0 / 0`, which is NaN (embedded as `none`), not `0`: the report
row for the lone column of an empty frame carries an undefined
percentage. -/
theorem claim_C5_counterexample :
    (analyze_dataframe [⟨"a", ([] : List Cell)⟩]).missingTable
      = [("a", 0, (none : Option ℚ))] ∧ (none : Option ℚ) ≠ some 0 := by
  constructor
  · decide
  · decide

/-- C5 (amended): the report's missing-values table contains, for every
column `c`, the row `(c.name, missing_count, missing_percent)` with
`missing_percent = missing_count / row_count × 100` whenever
`row_count > 0` — in particular `0` when `c` has no missing cell and
`100` when every cell of `c` is missing — while for `row_count = 0` the
percentage is NaN (undefined), not `0`. -/
theorem claim_C5_amended_missing_percent
    (df : DataFrame) (c : Col) (hc : c ∈ df) (hwf : WF df) :
    (c.name, colMissing c, missingPercent df c) ∈ (analyze_dataframe df).missingTable ∧
    (0 < nRows df →
      missingPercent df c = some ((colMissing c : ℚ) / (nRows df : ℚ) * 100) ∧
      ((∀ x ∈ c.cells, x.isMissing = false) → missingPercent df c = some 0) ∧
      ((∀ x ∈ c.cells, x.isMissing = true) → missingPercent df c = some 100)) ∧
    (nRows df = 0 → missingPercent df c = none) := by
  refine ⟨?_, ?_, ?_⟩
  · have hmem : (c.name, colMissing c, missingPercent df c)
        ∈ df.map fun c => (c.name, colMissing c, missingPercent df c) :=
      List.mem_map_of_mem _ hc
    exact ((sortDesc_perm _).mem_iff).mpr hmem
  · intro hpos
    have h0 : nRows df ≠ 0 := Nat.pos_iff_ne_zero.mp hpos
    have hval : missingPercent df c = some ((colMissing c : ℚ) / (nRows df : ℚ) * 100) := by
      simp [missingPercent, h0]
    refine ⟨hval, ?_, ?_⟩
    · intro hnone
      have hcnt : colMissing c = 0 := by
        simp only [colMissing, List.countP_eq_zero]
        intro x hx
        simpa using hnone x hx
      rw [hval, hcnt]
      norm_num
    · intro hall
      have hcnt : colMissing c = nRows df := by
        have : colMissing c = c.cells.length :=
          List.countP_eq_length.mpr fun x hx => hall x hx
        rw [this, hwf c hc]
      have hcast : ((nRows df : ℚ)) ≠ 0 := Nat.cast_ne_zero.mpr h0
      rw [hval, hcnt, div_self hcast]
      norm_num
  · intro h0
    simp [missingPercent, h0]

/-- C5 witness: a two-row frame with one missing cell in its column;
row count positive, the no-missing and all-missing legs hold for its
companion columns. -/
theorem claim_C5_amended_missing_percent_witness :
    (("a", colMissing ⟨"a", [Cell.num 1, Cell.missing]⟩,
        missingPercent [⟨"a", [Cell.num 1, Cell.missing]⟩, ⟨"b", [Cell.str "x", Cell.str "y"]⟩]
          ⟨"a", [Cell.num 1, Cell.missing]⟩)
      ∈ (analyze_dataframe
          [⟨"a", [Cell.num 1, Cell.missing]⟩, ⟨"b", [Cell.str "x", Cell.str "y"]⟩]).missingTable) ∧
    (0 < nRows [⟨"a", [Cell.num 1, Cell.missing]⟩, ⟨"b", [Cell.str "x", Cell.str "y"]⟩] →
      missingPercent [⟨"a", [Cell.num 1, Cell.missing]⟩, ⟨"b", [Cell.str "x", Cell.str "y"]⟩]
          ⟨"a", [Cell.num 1, Cell.missing]⟩
        = some ((colMissing ⟨"a", [Cell.num 1, Cell.missing]⟩ : ℚ)
            / (nRows [⟨"a", [Cell.num 1, Cell.missing]⟩, ⟨"b", [Cell.str "x", Cell.str "y"]⟩] : ℚ)
            * 100) ∧
      ((∀ x ∈ [Cell.num 1, Cell.missing], x.isMissing = false) →
        missingPercent [⟨"a", [Cell.num 1, Cell.missing]⟩, ⟨"b", [Cell.str "x", Cell.str "y"]⟩]
          ⟨"a", [Cell.num 1, Cell.missing]⟩ = some 0) ∧
      ((∀ x ∈ [Cell.num 1, Cell.missing], x.isMissing = true) →
        missingPercent [⟨"a", [Cell.num 1, Cell.missing]⟩, ⟨"b", [Cell.str "x", Cell.str "y"]⟩]
          ⟨"a", [Cell.num 1, Cell.missing]⟩ = some 100)) ∧
    (nRows [⟨"a", [Cell.num 1, Cell.missing]⟩, ⟨"b", [Cell.str "x", Cell.str "y"]⟩] = 0 →
      missingPercent [⟨"a", [Cell.num 1, Cell.missing]⟩, ⟨"b", [Cell.str "x", Cell.str "y"]⟩]
        ⟨"a", [Cell.num 1, Cell.missing]⟩ = none) :=
  claim_C5_amended_missing_percent
    [⟨"a", [Cell.num 1, Cell.missing]⟩, ⟨"b", [Cell.str "x", Cell.str "y"]⟩]
    ⟨"a", [Cell.num 1, Cell.missing]⟩ (by decide) (by decide)

/-! ### Claim C7: the correlation matrix -/

/-- Swapping a cell pair swaps its numeric observation. -/
theorem pairNums_swap (p : Cell × Cell) :
    pairNums p.swap = (pairNums p).map Prod.swap := by
  obtain ⟨a, b⟩ := p
  cases a <;> cases b <;> rfl

/-- The pairwise-complete observations of `(ys, xs)` are those of
`(xs, ys)` swapped. -/
theorem numPairs_swap (xs ys : List Cell) :
    numPairs ys xs = (numPairs xs ys).map Prod.swap := by
  unfold numPairs
  rw [← List.zip_swap xs ys, List.filterMap_map, List.map_filterMap]
  congr 1
  funext p
  simpa [Function.comp] using pairNums_swap p

/-- The Pearson numerator is invariant under swapping the observations. -/
theorem pearsonNum_swap (ps : List (ℚ × ℚ)) :
    pearsonNum (ps.map Prod.swap) = pearsonNum ps := by
  unfold pearsonNum
  simp only [List.length_map, List.map_map]
  have h₁ : (ps.map (Prod.swap ∘ fun p : ℚ × ℚ => p)).map (fun p => p.1 * p.2)
      = ps.map fun p => p.1 * p.2 := by
    simp [List.map_map, Function.comp_def, mul_comm]
  have h₂ : ps.map ((fun p : ℚ × ℚ => p.1 * p.2) ∘ Prod.swap) = ps.map fun p => p.1 * p.2 := by
    simp [Function.comp_def, mul_comm]
  rw [h₂]
  simp [Function.comp_def, mul_comm]

/-- Swapping exchanges the two denominator factors (first direction). -/
theorem pearsonDenX_swap (ps : List (ℚ × ℚ)) :
    pearsonDenX (ps.map Prod.swap) = pearsonDenY ps := by
  unfold pearsonDenX pearsonDenY
  simp [List.map_map, Function.comp_def]

/-- Swapping exchanges the two denominator factors (second direction). -/
theorem pearsonDenY_swap (ps : List (ℚ × ℚ)) :
    pearsonDenY (ps.map Prod.swap) = pearsonDenX ps := by
  unfold pearsonDenX pearsonDenY
  simp [List.map_map, Function.comp_def]

/-- The exact correlation entry is symmetric in its two columns. -/
theorem corrEntry_symm (xs ys : List Cell) : corrEntry ys xs = corrEntry xs ys := by
  unfold corrEntry
  rw [numPairs_swap xs ys, pearsonNum_swap, pearsonDenX_swap, pearsonDenY_swap]
  exact congrArg _ (mul_comm _ _)

/-- The real correlation value is symmetric in its two columns. -/
theorem corrValue_symm (xs ys : List Cell) : corrValue ys xs = corrValue xs ys := by
  unfold corrValue
  rw [corrEntry_symm]

/-- Zipping a list with itself pairs each element with itself. -/
theorem zip_self (xs : List Cell) : xs.zip xs = xs.map fun a => (a, a) := by
  induction xs with
  | nil => rfl
  | cons x xs ih => simp [ih]

/-- The diagonal observations: each numeric cell paired with itself. -/
theorem numPairs_self (xs : List Cell) :
    numPairs xs xs = (xs.filterMap numOf).map fun q => (q, q) := by
  unfold numPairs
  rw [zip_self, List.filterMap_map, List.map_filterMap]
  congr 1
  funext a
  cases a <;> rfl

/-- A sum of squares is nonnegative. -/
theorem sum_sq_nonneg (l : List ℚ) : 0 ≤ (l.map fun q => q ^ 2).sum := by
  induction l with
  | nil => simp
  | cons x xs ih =>
    simp only [List.map_cons, List.sum_cons]
    have := sq_nonneg x
    linarith

/-- Cauchy-Schwarz with the all-ones vector: `(Σx)² ≤ n·Σx²`. -/
theorem sq_sum_le_card_mul_sum_sq (l : List ℚ) :
    l.sum ^ 2 ≤ (l.length : ℚ) * (l.map fun q => q ^ 2).sum := by
  induction l with
  | nil => simp
  | cons x xs ih =>
    have ht : 0 ≤ (xs.map fun q => q ^ 2).sum := sum_sq_nonneg xs
    have hn : (0 : ℚ) ≤ (xs.length : ℚ) := Nat.cast_nonneg _
    simp only [List.sum_cons, List.length_cons, List.map_cons, Nat.cast_add, Nat.cast_one]
    rcases List.eq_nil_or_concat xs with hnil | _
    · subst hnil; simp
    · have hlen : 1 ≤ xs.length := by
        rcases xs with _ | _
        · simp_all
        · simp
      have hn1 : (1 : ℚ) ≤ (xs.length : ℚ) := by exact_mod_cast hlen
      have h1 : 0 ≤ ((xs.length : ℚ) + 1) * ((xs.length : ℚ) * (xs.map fun q => q ^ 2).sum
          - xs.sum ^ 2) := mul_nonneg (by linarith) (by linarith)
      have h2 : 0 ≤ ((xs.length : ℚ) * x - xs.sum) ^ 2 := sq_nonneg _
      nlinarith [h1, h2, hn1]

/-- The diagonal radicand factor is nonnegative (it is `n²` times the
column's variance). -/
theorem pearsonDenX_self_nonneg (xs : List Cell) :
    0 ≤ pearsonDenX (numPairs xs xs) := by
  rw [numPairs_self]
  unfold pearsonDenX
  have hfst : (((xs.filterMap numOf).map fun q => (q, q)).map Prod.fst)
      = xs.filterMap numOf := by
    simp [List.map_map, Function.comp_def]
  have hsq : (((xs.filterMap numOf).map fun q => (q, q)).map fun p => p.1 ^ 2)
      = (xs.filterMap numOf).map fun q => q ^ 2 := by
    simp [List.map_map, Function.comp_def]
  rw [hfst, hsq, List.length_map]
  linarith [sq_sum_le_card_mul_sum_sq (xs.filterMap numOf)]

/-- On the diagonal the Pearson numerator equals the first radicand
factor. -/
theorem pearsonNum_self (xs : List Cell) :
    pearsonNum (numPairs xs xs) = pearsonDenX (numPairs xs xs) := by
  rw [numPairs_self]
  unfold pearsonNum pearsonDenX
  simp [List.map_map, Function.comp_def, sq]

/-- On the diagonal the two radicand factors agree. -/
theorem pearsonDenY_self (xs : List Cell) :
    pearsonDenY (numPairs xs xs) = pearsonDenX (numPairs xs xs) := by
  rw [numPairs_self]
  unfold pearsonDenY pearsonDenX
  simp [List.map_map, Function.comp_def]

/-- A diagonal correlation entry of a column with nonzero variance has
real value exactly 1. -/
theorem corrValue_diag (xs : List Cell) (h : pearsonDenX (numPairs xs xs) ≠ 0) :
    corrValue xs xs = 1 := by
  unfold corrValue corrEntry
  rw [pearsonNum_self, pearsonDenY_self]
  have hpos : 0 < pearsonDenX (numPairs xs xs) :=
    lt_of_le_of_ne (pearsonDenX_self_nonneg xs) (Ne.symm h)
  have hposR : (0 : ℝ) < ((pearsonDenX (numPairs xs xs) : ℚ) : ℝ) := by
    exact_mod_cast hpos
  rw [show ((pearsonDenX (numPairs xs xs) * pearsonDenX (numPairs xs xs) : ℚ) : ℝ)
      = ((pearsonDenX (numPairs xs xs) : ℚ) : ℝ) * ((pearsonDenX (numPairs xs xs) : ℚ) : ℝ)
    by push_cast; ring]
  rw [Real.sqrt_mul_self hposR.le]
  exact div_self hposR.ne'

/-- C7: the report carries a correlation matrix exactly when the frame
has at least two numeric columns; the matrix entry at `(i, j)` is the
correlation of the `i`-th and `j`-th numeric columns; the matrix is
symmetric — `corr[i][j] = corr[j][i]` both as exact representations and
as real values — and every diagonal entry of a column with nonzero
variance equals 1. -/
theorem claim_C7_correlation_matrix (df : DataFrame) :
    ((analyze_dataframe df).correlation.isSome ↔ 2 ≤ (numericCols df).length) ∧
    (2 ≤ (numericCols df).length →
      (analyze_dataframe df).correlation = some (corrMatrix (numericCols df))) ∧
    (∀ i j : Nat, ∀ hi : i < (numericCols df).length, ∀ hj : j < (numericCols df).length,
      ((corrMatrix (numericCols df))[i]?.bind fun row => row[j]?)
        = some (corrEntry ((numericCols df)[i]).cells ((numericCols df)[j]).cells)) ∧
    (∀ ci ∈ numericCols df, ∀ cj ∈ numericCols df,
      corrEntry ci.cells cj.cells = corrEntry cj.cells ci.cells ∧
      corrValue ci.cells cj.cells = corrValue cj.cells ci.cells) ∧
    (∀ ci ∈ numericCols df, pearsonDenX (numPairs ci.cells ci.cells) ≠ 0 →
      corrValue ci.cells ci.cells = 1) := by
  refine ⟨?_, ?_, ?_, ?_, ?_⟩
  · show (if 1 < (numericCols df).length then _ else none).isSome ↔ _
    by_cases h : 1 < (numericCols df).length
    · simp [h]; omega
    · simp [h]; omega
  · intro h
    show (if 1 < (numericCols df).length then _ else none) = _
    rw [if_pos (by omega)]
  · intro i j hi hj
    simp [corrMatrix, List.getElem?_map, List.getElem?_eq_getElem hi,
      List.getElem?_eq_getElem hj]
  · intro ci _ cj _
    exact ⟨(corrEntry_symm ci.cells cj.cells).symm, (corrValue_symm ci.cells cj.cells).symm⟩
  · intro ci _ h
    exact corrValue_diag ci.cells h

/-- C7 witness: a two-column numeric frame; the matrix is present and
the diagonal entry of its first column (nonzero variance) is 1. -/
theorem claim_C7_correlation_matrix_witness :
    (analyze_dataframe
        [⟨"x", [Cell.num 1, Cell.num 2]⟩, ⟨"y", [Cell.num 2, Cell.num 1]⟩]).correlation.isSome ∧
    corrValue [Cell.num 1, Cell.num 2] [Cell.num 1, Cell.num 2] = 1 := by
  constructor
  · exact (claim_C7_correlation_matrix
      [⟨"x", [Cell.num 1, Cell.num 2]⟩, ⟨"y", [Cell.num 2, Cell.num 1]⟩]).1.mpr (by decide)
  · refine (claim_C7_correlation_matrix
      [⟨"x", [Cell.num 1, Cell.num 2]⟩, ⟨"y", [Cell.num 2, Cell.num 1]⟩]).2.2.2.2
      ⟨"x", [Cell.num 1, Cell.num 2]⟩ (by decide) ?_
    have hp : numPairs [Cell.num 1, Cell.num 2] [Cell.num 1, Cell.num 2]
        = [(1, 1), (2, 2)] := rfl
    rw [hp]
    simp [pearsonDenX]
    norm_num

/-! ### Claim C8: the CSV round trip

The export contract is settled concretely: printing a frame with
`to_csv` and re-reading the characters with the embedded `pd.read_csv`
reproduces the frame, under the stability conditions of `csvStable`;
outside them re-import coerces values (the counterexample: an
empty-string text cell comes back as a missing marker). -/

/-- Printing then reading a decimal digit is the identity. -/
theorem charDigit_digitChar (d : Nat) (h : d < 10) : charDigit (digitChar d) = d := by
  interval_cases d <;> decide

/-- Digit characters satisfy `Char.isDigit`. -/
theorem isDigit_digitChar (d : Nat) (h : d < 10) : (digitChar d).isDigit = true := by
  interval_cases d <;> decide

/-- The digit-string fold from an arbitrary accumulator. -/
theorem digitsVal_foldl_acc (cs : List Char) :
    ∀ acc, cs.foldl (fun a c => 10 * a + charDigit c) acc
      = acc * 10 ^ cs.length + digitsVal cs := by
  induction cs with
  | nil => intro acc; simp [digitsVal]
  | cons c cs ih =>
    intro acc
    show cs.foldl _ (10 * acc + charDigit c) = _
    rw [ih (10 * acc + charDigit c)]
    have h0 : digitsVal (c :: cs) = charDigit c * 10 ^ cs.length + digitsVal cs := by
      show cs.foldl _ (10 * 0 + charDigit c) = _
      rw [ih (10 * 0 + charDigit c)]
      ring
    rw [h0, List.length_cons]
    ring

/-- The value of a concatenated digit string. -/
theorem digitsVal_append (a b : List Char) :
    digitsVal (a ++ b) = digitsVal a * 10 ^ b.length + digitsVal b := by
  unfold digitsVal
  rw [List.foldl_append]
  exact digitsVal_foldl_acc b _

/-- The fuel-based digit printer is exact whenever the fuel suffices. -/
theorem natCharsAux_val (fuel : Nat) :
    ∀ n, n ≤ fuel → digitsVal (natCharsAux fuel n) = n := by
  induction fuel with
  | zero =>
    intro n h
    interval_cases n
    simp [natCharsAux, digitsVal]
  | succ fuel ih =>
    intro n h
    by_cases h0 : n = 0
    · subst h0; simp [natCharsAux, digitsVal]
    · have hdiv : n / 10 ≤ fuel := by
        have : n / 10 < n := Nat.div_lt_self (Nat.pos_of_ne_zero h0) (by norm_num)
        omega
      simp only [natCharsAux, if_neg h0]
      rw [digitsVal_append, ih _ hdiv]
      have hval : digitsVal [digitChar (n % 10)] = n % 10 := by
        simp [digitsVal, charDigit_digitChar _ (Nat.mod_lt n (by omega))]
      rw [hval]
      simp
      omega

/-- The digit printer emits only digit characters. -/
theorem natCharsAux_digits (fuel : Nat) :
    ∀ n, ∀ c ∈ natCharsAux fuel n, c.isDigit = true := by
  induction fuel with
  | zero => intro n c hc; simp [natCharsAux] at hc
  | succ fuel ih =>
    intro n c hc
    by_cases h0 : n = 0
    · subst h0; simp [natCharsAux] at hc
    · simp only [natCharsAux, if_neg h0, List.mem_append, List.mem_singleton] at hc
      rcases hc with hc | hc
      · exact ih _ c hc
      · subst hc; exact isDigit_digitChar _ (Nat.mod_lt n (by omega))

/-- Reading back a printed natural number. -/
theorem digitsVal_natChars (n : Nat) : digitsVal (natChars n) = n := by
  by_cases h : n = 0
  · subst h; decide
  · simp only [natChars, if_neg h]
    exact natCharsAux_val n n le_rfl

/-- Printed natural numbers consist of digits. -/
theorem natChars_digits (n : Nat) : ∀ c ∈ natChars n, c.isDigit = true := by
  by_cases h : n = 0
  · subst h; decide
  · simp only [natChars, if_neg h]
    exact natCharsAux_digits n n

/-- Printed natural numbers are nonempty. -/
theorem natChars_ne_nil (n : Nat) : natChars n ≠ [] := by
  by_cases h : n = 0
  · subst h; decide
  · simp only [natChars, if_neg h]
    obtain ⟨m, rfl⟩ := Nat.exists_eq_succ_of_ne_zero h
    simp [natCharsAux]

/-- `parseNatChars` inverts `natChars`. -/
theorem parseNatChars_natChars (n : Nat) : parseNatChars (natChars n) = some n := by
  unfold parseNatChars
  have h1 : (natChars n).isEmpty = false := by
    cases hn : natChars n with
    | nil => exact absurd hn (natChars_ne_nil n)
    | cons c cs => rfl
  have h2 : (natChars n).all Char.isDigit = true :=
    List.all_eq_true.mpr (natChars_digits n)
  rw [h1, h2]
  simp [digitsVal_natChars]

/-- Splitting never yields an empty group list. -/
theorem splitOnCh_ne_nil (sep : Char) (l : List Char) : splitOnCh sep l ≠ [] := by
  cases l with
  | nil => simp [splitOnCh]
  | cons c cs =>
    simp only [splitOnCh]
    cases h : splitOnCh sep cs with
    | nil => simp
    | cons g gs => by_cases hc : c = sep <;> simp [hc]

/-- Splitting a separator-free list yields that single group. -/
theorem splitOnCh_not_mem {sep : Char} {l : List Char} (h : sep ∉ l) :
    splitOnCh sep l = [l] := by
  induction l with
  | nil => rfl
  | cons c cs ih =>
    have hc : c ≠ sep := fun he => h (he ▸ List.mem_cons_self c cs)
    have hcs : sep ∉ cs := fun hm => h (List.mem_cons_of_mem c hm)
    simp only [splitOnCh, ih hcs]
    rw [if_neg hc]

/-- Prepending a separator opens a fresh empty group. -/
theorem splitOnCh_sep_cons (sep : Char) (l : List Char) :
    splitOnCh sep (sep :: l) = [] :: splitOnCh sep l := by
  simp only [splitOnCh]
  cases h : splitOnCh sep l with
  | nil => exact absurd h (splitOnCh_ne_nil sep l)
  | cons g gs => simp

/-- Prepending separator-free characters extends the first group. -/
theorem splitOnCh_append {sep : Char} {a : List Char} (ha : sep ∉ a) (l : List Char)
    (g : List Char) (gs : List (List Char)) (h : splitOnCh sep l = g :: gs) :
    splitOnCh sep (a ++ l) = (a ++ g) :: gs := by
  induction a with
  | nil => simpa using h
  | cons c cs ih =>
    have hc : c ≠ sep := fun he => ha (he ▸ List.mem_cons_self c cs)
    have hcs : sep ∉ cs := fun hm => ha (List.mem_cons_of_mem c hm)
    have ih' := ih hcs
    rw [List.cons_append]
    simp only [splitOnCh, ih']
    rw [if_neg hc]
    simp

/-- Splitting a string with exactly one separator occurrence. -/
theorem splitOnCh_single {sep : Char} {a b : List Char} (ha : sep ∉ a) (hb : sep ∉ b) :
    splitOnCh sep (a ++ sep :: b) = [a, b] := by
  have h1 : splitOnCh sep (sep :: b) = [] :: [b] := by
    rw [splitOnCh_sep_cons, splitOnCh_not_mem hb]
  simpa using splitOnCh_append ha _ _ _ h1

/-- `splitOnCh` inverts `joinWith` on separator-free group lists. -/
theorem splitOnCh_joinWith (sep : Char) :
    ∀ parts : List (List Char), parts ≠ [] → (∀ p ∈ parts, sep ∉ p) →
      splitOnCh sep (joinWith sep parts) = parts := by
  intro parts
  induction parts with
  | nil => intro h; exact absurd rfl h
  | cons p ps ih =>
    intro _ hfree
    cases ps with
    | nil => exact splitOnCh_not_mem (hfree p (by simp))
    | cons q qs =>
      have hp : sep ∉ p := hfree p (by simp)
      have h1 : splitOnCh sep (sep :: joinWith sep (q :: qs)) = [] :: q :: qs := by
        rw [splitOnCh_sep_cons, ih (by simp) fun r hr => hfree r (List.mem_cons_of_mem p hr)]
      have h2 := splitOnCh_append hp _ _ _ h1
      simpa using h2

/-- A nonempty all-digit string parses to its value. -/
theorem parseNatChars_of_digits {cs : List Char} (h : cs ≠ [])
    (hd : ∀ c ∈ cs, c.isDigit = true) : parseNatChars cs = some (digitsVal cs) := by
  unfold parseNatChars
  have h1 : cs.isEmpty = false := by
    cases cs with
    | nil => exact absurd rfl h
    | cons c cs => rfl
  rw [h1, List.all_eq_true.mpr hd]
  simp

/-- Evaluating `parseUnsigned` on a dot-free string. -/
theorem parseUnsigned_no_dot {w : List Char} (hw : '.' ∉ w) :
    parseUnsigned w = (parseNatChars w).map fun n => (n : ℚ) := by
  unfold parseUnsigned
  rw [splitOnCh_not_mem hw]

/-- Evaluating `parseUnsigned` on a string with exactly one dot. -/
theorem parseUnsigned_one_dot {w f : List Char} (hw : '.' ∉ w) (hf : '.' ∉ f) :
    parseUnsigned (w ++ '.' :: f)
      = if w.all Char.isDigit && f.all Char.isDigit && !(w.isEmpty && f.isEmpty) then
          some (((digitsVal w * 10 ^ f.length + digitsVal f : ℕ) : ℚ) / (10 : ℚ) ^ f.length)
        else none := by
  unfold parseUnsigned
  rw [splitOnCh_single hw hf]

/-- A non-digit character is not among all-digit characters. -/
theorem not_mem_of_digits {cs : List Char} (hd : ∀ c ∈ cs, c.isDigit = true)
    {x : Char} (hx : x.isDigit = false) : x ∉ cs := fun hm => by
  rw [hd x hm] at hx
  cases hx

/-- Mapping a function that fixes every element is the identity. -/
theorem map_id_on {α : Type} {l : List α} {f : α → α} (h : ∀ x ∈ l, f x = x) :
    l.map f = l := by
  induction l with
  | nil => rfl
  | cons x xs ih => rw [List.map_cons, h x (by simp), ih fun y hy => h y (by simp [hy])]

/-- Digit strings carry no exponent marker. -/
theorem digits_no_exp {cs : List Char} (hd : ∀ c ∈ cs, c.isDigit = true) :
    ∀ c ∈ cs, c ≠ 'e' ∧ c ≠ 'E' := by
  intro c hc
  constructor
  · intro he
    subst he
    exact absurd (hd _ hc) (by decide)
  · intro he
    subst he
    exact absurd (hd _ hc) (by decide)

/-- On exponent-free strings the exponent-aware parser is the plain
decimal parser. -/
theorem parseUnsignedE_no_exp {cs : List Char} (h : ∀ c ∈ cs, c ≠ 'e' ∧ c ≠ 'E') :
    parseUnsignedE cs = parseUnsigned cs := by
  unfold parseUnsignedE
  have hmap : cs.map expChar = cs :=
    map_id_on fun c hc => by unfold expChar; rw [if_neg (h c hc).2]
  rw [hmap, splitOnCh_not_mem fun hm => (h 'e' hm).1 rfl]

/-- `parseUnsigned` inverts `natChars`. -/
theorem parseUnsigned_natChars (n : Nat) : parseUnsigned (natChars n) = some (n : ℚ) := by
  rw [parseUnsigned_no_dot (not_mem_of_digits (natChars_digits n) (by decide)),
    parseNatChars_natChars]
  rfl

/-- `parseDec` inverts `natChars`. -/
theorem parseDec_natChars (n : Nat) : parseDec (natChars n) = some (n : ℚ) := by
  unfold parseDec
  have hh : ∀ s : Char, s.isDigit = false → (natChars n).head? ≠ some s := by
    intro s hs
    cases hn : natChars n with
    | nil => exact absurd hn (natChars_ne_nil n)
    | cons c cs =>
      have hc : c.isDigit = true := natChars_digits n c (hn ▸ List.mem_cons_self c cs)
      simp only [List.head?, ne_eq, Option.some.injEq]
      intro he
      subst he
      rw [hc] at hs
      cases hs
  rw [if_neg (hh '-' (by decide)), if_neg (hh '+' (by decide)),
    parseUnsignedE_no_exp (digits_no_exp (natChars_digits n))]
  exact parseUnsigned_natChars n

/-- `parseDec` inverts `intChars`. -/
theorem parseDec_intChars (i : ℤ) : parseDec (intChars i) = some (i : ℚ) := by
  by_cases hneg : i < 0
  · simp only [intChars, if_pos hneg]
    have hh : (('-' :: natChars i.natAbs).head? = some '-') := rfl
    unfold parseDec
    rw [if_pos hh]
    show (parseUnsignedE (natChars i.natAbs)).map _ = _
    rw [parseUnsignedE_no_exp (digits_no_exp (natChars_digits i.natAbs)),
      parseUnsigned_natChars]
    have habs : ((i.natAbs : ℚ)) = -(i : ℚ) := by
      rw [Int.cast_natAbs]
      exact_mod_cast abs_of_neg hneg
    simp [habs]
  · simp only [intChars, if_neg hneg]
    rw [parseDec_natChars]
    have habs : ((i.natAbs : ℚ)) = (i : ℚ) := by
      rw [Int.cast_natAbs]
      exact_mod_cast abs_of_nonneg (not_lt.mp hneg)
    rw [habs]

/-- Leading zeros contribute nothing to a digit string's value. -/
theorem digitsVal_replicate_zero (z : Nat) : digitsVal (List.replicate z '0') = 0 := by
  induction z with
  | zero => rfl
  | succ z ih =>
    show digitsVal ('0' :: List.replicate z '0') = 0
    unfold digitsVal at ih ⊢
    simpa [charDigit] using ih

/-- The padded digit string consists of digits. -/
theorem padChars_digits (k m : Nat) : ∀ c ∈ padChars k m, c.isDigit = true := by
  intro c hc
  rcases List.mem_append.mp hc with hc | hc
  · rw [List.eq_of_mem_replicate hc]; decide
  · exact natChars_digits m c hc

/-- The padded digit string has at least `k+1` characters. -/
theorem padChars_length (k m : Nat) : k + 1 ≤ (padChars k m).length := by
  unfold padChars
  rw [List.length_append, List.length_replicate]
  have := List.length_pos.mpr (natChars_ne_nil m)
  omega

/-- The padded digit string keeps the value `m`. -/
theorem digitsVal_padChars (k m : Nat) : digitsVal (padChars k m) = m := by
  unfold padChars
  rw [digitsVal_append, digitsVal_replicate_zero, digitsVal_natChars]
  simp

/-- `parseUnsigned` recovers `m / 10^k` from the fractional rendering. -/
theorem parseUnsigned_fracChars (k m : Nat) (hk : 1 ≤ k) :
    parseUnsigned (fracChars k m) = some ((m : ℚ) / 10 ^ k) := by
  have hlen := padChars_length k m
  have hdig := padChars_digits k m
  have hwd : ∀ c ∈ (padChars k m).take ((padChars k m).length - k), c.isDigit = true :=
    fun c hc => hdig c (List.take_subset _ _ hc)
  have hfd : ∀ c ∈ (padChars k m).drop ((padChars k m).length - k), c.isDigit = true :=
    fun c hc => hdig c (List.drop_subset _ _ hc)
  have hwlen : ((padChars k m).take ((padChars k m).length - k)).length
      = (padChars k m).length - k := by
    rw [List.length_take]
    omega
  have hflen : ((padChars k m).drop ((padChars k m).length - k)).length = k := by
    rw [List.length_drop]
    omega
  have hwne : (padChars k m).take ((padChars k m).length - k) ≠ [] := by
    intro h
    rw [h] at hwlen
    simp at hwlen
    omega
  have hfne : (padChars k m).drop ((padChars k m).length - k) ≠ [] := by
    intro h
    rw [h] at hflen
    simp at hflen
    omega
  have hwem : ((padChars k m).take ((padChars k m).length - k)).isEmpty = false := by
    cases hw : (padChars k m).take ((padChars k m).length - k) with
    | nil => exact absurd hw hwne
    | cons c cs => rfl
  unfold fracChars
  rw [parseUnsigned_one_dot (not_mem_of_digits hwd (by decide))
    (not_mem_of_digits hfd (by decide))]
  split_ifs with hcond
  · have hval : digitsVal ((padChars k m).take ((padChars k m).length - k)) * 10 ^ k
        + digitsVal ((padChars k m).drop ((padChars k m).length - k)) = m := by
      have := digitsVal_append ((padChars k m).take ((padChars k m).length - k))
        ((padChars k m).drop ((padChars k m).length - k))
      rw [List.take_append_drop, digitsVal_padChars, hflen] at this
      omega
    rw [hflen]
    have hcast : ((digitsVal ((padChars k m).take ((padChars k m).length - k)) * 10 ^ k
        + digitsVal ((padChars k m).drop ((padChars k m).length - k)) : ℕ) : ℚ) = (m : ℚ) := by
      exact_mod_cast hval
    rw [hcast]
  · exfalso
    apply hcond
    rw [List.all_eq_true.mpr hwd, List.all_eq_true.mpr hfd, hwem]
    rfl

/-- Every character of the fractional rendering is a digit or the dot,
so no exponent marker occurs in it. -/
theorem fracChars_no_exp (k m : Nat) : ∀ c ∈ fracChars k m, c ≠ 'e' ∧ c ≠ 'E' := by
  intro c hc
  unfold fracChars at hc
  rcases List.mem_append.mp hc with h | h
  · exact digits_no_exp (fun x hx => padChars_digits k m x (List.take_subset _ _ hx)) c h
  · rcases List.mem_cons.mp h with h | h
    · subst h
      exact ⟨by decide, by decide⟩
    · exact digits_no_exp (fun x hx => padChars_digits k m x (List.drop_subset _ _ hx)) c h

/-- The fractional rendering starts with a digit, never a sign. -/
theorem fracChars_head_not_sign (k m : Nat) (hk : 1 ≤ k) :
    ∀ s : Char, s.isDigit = false → (fracChars k m).head? ≠ some s := by
  intro s hs
  have hlen := padChars_length k m
  have hdig := padChars_digits k m
  unfold fracChars
  cases hw : (padChars k m).take ((padChars k m).length - k) with
  | nil =>
    have : ((padChars k m).take ((padChars k m).length - k)).length
        = (padChars k m).length - k := by
      rw [List.length_take]; omega
    rw [hw] at this
    simp at this
    omega
  | cons c cs =>
    have hc : c.isDigit = true :=
      hdig c (List.take_subset ((padChars k m).length - k) (padChars k m)
        (hw ▸ List.mem_cons_self c cs))
    simp only [List.cons_append, List.head?, ne_eq, Option.some.injEq]
    intro he
    subst he
    rw [hc] at hs
    cases hs

/-- The decimal printer and the decimal parser are mutually inverse on
rationals whose denominator divides a power of ten. -/
theorem parseDec_ratChars (q : ℚ) (h : (q.den : ℕ) ∣ 10 ^ q.den) :
    parseDec (ratChars q) = some q := by
  by_cases hden : q.den = 1
  · simp only [ratChars, if_pos hden]
    rw [parseDec_intChars]
    have hq := Rat.num_div_den q
    rw [hden] at hq
    simp only [Nat.cast_one, div_one] at hq
    rw [hq]
  · simp only [ratChars, if_neg hden]
    have hk1 : 1 ≤ q.den := q.pos
    have hscaled : ((q.num.natAbs * 10 ^ q.den / q.den : ℕ) : ℚ) / 10 ^ q.den
        = (q.num.natAbs : ℚ) / (q.den : ℚ) := by
      have hex : q.num.natAbs * 10 ^ q.den / q.den * q.den = q.num.natAbs * 10 ^ q.den :=
        Nat.div_mul_cancel (h.mul_left _)
      have hden0 : ((q.den : ℚ)) ≠ 0 := Nat.cast_ne_zero.mpr (Nat.pos_iff_ne_zero.mp q.pos)
      have hpow : ((10 : ℚ)) ^ q.den ≠ 0 := pow_ne_zero _ (by norm_num)
      field_simp
      exact_mod_cast hex
    by_cases hneg : q.num < 0
    · rw [if_pos hneg]
      unfold parseDec
      have hcond : ('-' :: fracChars q.den (q.num.natAbs * 10 ^ q.den / q.den)).head?
          = some '-' := rfl
      rw [if_pos hcond]
      show (parseUnsignedE (fracChars q.den _)).map _ = _
      rw [parseUnsignedE_no_exp (fracChars_no_exp _ _),
        parseUnsigned_fracChars _ _ hk1, Option.map_some']
      rw [hscaled]
      have habs : ((q.num.natAbs : ℚ)) = -((q.num : ℚ)) := by
        rw [Int.cast_natAbs]
        exact_mod_cast abs_of_neg hneg
      rw [habs]
      rw [show -(-((q.num : ℚ)) / (q.den : ℚ)) = (q.num : ℚ) / (q.den : ℚ) by ring]
      rw [Rat.num_div_den]
    · rw [if_neg hneg]
      unfold parseDec
      rw [if_neg (fracChars_head_not_sign _ _ hk1 '-' (by decide)),
        if_neg (fracChars_head_not_sign _ _ hk1 '+' (by decide)),
        parseUnsignedE_no_exp (fracChars_no_exp _ _),
        parseUnsigned_fracChars _ _ hk1, hscaled]
      have habs : ((q.num.natAbs : ℚ)) = ((q.num : ℚ)) := by
        rw [Int.cast_natAbs]
        exact_mod_cast abs_of_nonneg (not_lt.mp hneg)
      rw [habs, Rat.num_div_den]

/-- None of the NA markers parses as a number. -/
theorem parseDec_naMarkers : ∀ m ∈ naMarkers, parseDec m = none := by decide

/-- Unpacking the stability conjunction of a text cell. -/
theorem stableStr_spec {s : String} (h : stableStr s = true) :
    isNAField s.data = false ∧ parseDec s.data = none ∧ isInfToken s.data = false ∧
      boolToken s.data = none ∧ ',' ∉ s.data ∧ '\n' ∉ s.data := by
  unfold stableStr at h
  rcases Bool.and_eq_true_iff.mp h with ⟨ha1, hnl⟩
  rcases Bool.and_eq_true_iff.mp ha1 with ⟨ha2, hcm⟩
  rcases Bool.and_eq_true_iff.mp ha2 with ⟨ha3, hbt⟩
  rcases Bool.and_eq_true_iff.mp ha3 with ⟨ha4, hinf⟩
  rcases Bool.and_eq_true_iff.mp ha4 with ⟨hna, hpd⟩
  exact ⟨by simpa using hna, Option.isNone_iff_eq_none.mp hpd, by simpa using hinf,
    Option.isNone_iff_eq_none.mp hbt, of_decide_eq_true hcm, of_decide_eq_true hnl⟩

/-- A printed rational is never an NA marker (it parses as a number). -/
theorem isNAField_ratChars (q : ℚ) (h : (q.den : ℕ) ∣ 10 ^ q.den) :
    isNAField (ratChars q) = false := by
  by_cases hm : ratChars q ∈ naMarkers
  · have h1 := parseDec_naMarkers _ hm
    rw [parseDec_ratChars q h] at h1
    cases h1
  · simp [isNAField, hm]

/-- Every character of a printed rational is a digit, a sign or a dot. -/
theorem mem_ratChars (q : ℚ) :
    ∀ ch ∈ ratChars q, ch.isDigit = true ∨ ch = '-' ∨ ch = '.' := by
  intro ch hch
  unfold ratChars at hch
  by_cases hden : q.den = 1
  · rw [if_pos hden] at hch
    unfold intChars at hch
    by_cases hneg : q.num < 0
    · rw [if_pos hneg] at hch
      rcases List.mem_cons.mp hch with h | h
      · exact Or.inr (Or.inl h)
      · exact Or.inl (natChars_digits _ ch h)
    · rw [if_neg hneg] at hch
      exact Or.inl (natChars_digits _ ch hch)
  · rw [if_neg hden] at hch
    have hfrac : ∀ x ∈ fracChars q.den (q.num.natAbs * 10 ^ q.den / q.den),
        x.isDigit = true ∨ x = '-' ∨ x = '.' := by
      intro x hx
      unfold fracChars at hx
      rcases List.mem_append.mp hx with h | h
      · exact Or.inl (padChars_digits _ _ x (List.take_subset _ _ h))
      · rcases List.mem_cons.mp h with h | h
        · exact Or.inr (Or.inr h)
        · exact Or.inl (padChars_digits _ _ x (List.drop_subset _ _ h))
    by_cases hneg : q.num < 0
    · rw [if_pos hneg] at hch
      rcases List.mem_cons.mp hch with h | h
      · exact Or.inr (Or.inl h)
      · exact hfrac ch h
    · rw [if_neg hneg] at hch
      exact hfrac ch hch

/-- Printed cells of stable columns contain neither the delimiter nor
the line terminator. -/
theorem printCell_no_sep {c : Cell}
    (h : cellNumOk c = true ∨ cellBoolOk c = true ∨ cellStrOk c = true) :
    ',' ∉ printCell c ∧ '\n' ∉ printCell c := by
  cases c with
  | num q =>
    constructor
    · intro hm
      rcases mem_ratChars q ',' hm with h | h | h <;> cases h
    · intro hm
      rcases mem_ratChars q '\n' hm with h | h | h <;> cases h
  | str s =>
    have hs : stableStr s = true := by
      rcases h with h | h | h
      · cases h
      · cases h
      · exact h
    exact ⟨(stableStr_spec hs).2.2.2.2.1, (stableStr_spec hs).2.2.2.2.2⟩
  | boolv b => cases b <;> exact ⟨by decide, by decide⟩
  | missing => exact ⟨by simp [printCell], by simp [printCell]⟩

/-- Re-inferring a printed stable column gives back its cells. -/
theorem inferCol_map_printCell (cells : List Cell)
    (h : cells.all cellNumOk = true ∨ cells.all cellBoolOk = true
      ∨ cells.all cellStrOk = true) :
    inferCol (cells.map printCell) = cells := by
  have hmem : ∀ f ∈ (cells.map printCell).filter (fun f => !isNAField f),
      ∃ c ∈ cells, f = printCell c ∧ isNAField f = false := by
    intro f hf
    rcases List.mem_filter.mp hf with ⟨hf₁, hf₂⟩
    rcases List.mem_map.mp hf₁ with ⟨c, hc, rfl⟩
    exact ⟨c, hc, rfl, by simpa using hf₂⟩
  by_cases hallm : ∀ c ∈ cells, c = Cell.missing
  · have hcond : ((cells.map printCell).filter (fun f => !isNAField f)).all
        (fun f => (parseDec f).isSome) = true := by
      rw [List.all_eq_true]
      intro f hf
      rcases hmem f hf with ⟨c, hc, rfl, hna⟩
      rw [hallm c hc] at hna
      cases hna
    unfold inferCol
    rw [if_pos hcond]
    refine Eq.trans (by rw [List.map_map]) (map_id_on ?_)
    intro c hc
    rw [hallm c hc]
    rfl
  · push_neg at hallm
    obtain ⟨c₀, hc₀, hc₀m⟩ := hallm
    rcases h with hnum | hbool | hstr
    · -- numeric column
      have hcond : ((cells.map printCell).filter (fun f => !isNAField f)).all
          (fun f => (parseDec f).isSome) = true := by
        rw [List.all_eq_true]
        intro f hf
        rcases hmem f hf with ⟨c, hc, rfl, hna⟩
        cases c with
        | num q =>
          have hq : (q.den : ℕ) ∣ 10 ^ q.den := by
            have := List.all_eq_true.mp hnum _ hc
            simpa [cellNumOk] using this
          rw [show printCell (Cell.num q) = ratChars q from rfl, parseDec_ratChars q hq]
          rfl
        | str s => have := List.all_eq_true.mp hnum _ hc; cases this
        | boolv b => have := List.all_eq_true.mp hnum _ hc; cases this
        | missing => cases hna
      unfold inferCol
      rw [if_pos hcond]
      refine Eq.trans (by rw [List.map_map]) (map_id_on ?_)
      intro c hc
      cases c with
      | num q =>
        have hq : (q.den : ℕ) ∣ 10 ^ q.den := by
          have := List.all_eq_true.mp hnum _ hc
          simpa [cellNumOk] using this
        show (if isNAField (ratChars q) then Cell.missing
          else Cell.num ((parseDec (ratChars q)).getD 0)) = Cell.num q
        rw [isNAField_ratChars q hq, parseDec_ratChars q hq]
        rfl
      | str s => have := List.all_eq_true.mp hnum _ hc; cases this
      | boolv b => have := List.all_eq_true.mp hnum _ hc; cases this
      | missing => rfl
    · -- boolean column
      have hb₀ : ∃ b, c₀ = Cell.boolv b := by
        cases c₀ with
        | boolv b => exact ⟨b, rfl⟩
        | num q => have := List.all_eq_true.mp hbool _ hc₀; cases this
        | str s => have := List.all_eq_true.mp hbool _ hc₀; cases this
        | missing => exact absurd rfl hc₀m
      obtain ⟨b₀, rfl⟩ := hb₀
      have hfmem : printCell (Cell.boolv b₀)
          ∈ (cells.map printCell).filter (fun f => !isNAField f) := by
        rw [List.mem_filter]
        refine ⟨List.mem_map_of_mem _ hc₀, ?_⟩
        cases b₀ <;> decide
      have hcond₁ : ((cells.map printCell).filter (fun f => !isNAField f)).all
          (fun f => (parseDec f).isSome) = false := by
        rw [List.all_eq_false]
        refine ⟨printCell (Cell.boolv b₀), hfmem, ?_⟩
        cases b₀ <;> decide
      have hcond₂ : ((cells.map printCell).filter (fun f => !isNAField f)).all
          (fun f => (boolToken f).isSome) = true := by
        rw [List.all_eq_true]
        intro f hf
        rcases hmem f hf with ⟨c, hc, rfl, hna⟩
        cases c with
        | boolv b => cases b <;> rfl
        | num q => have := List.all_eq_true.mp hbool _ hc; cases this
        | str s => have := List.all_eq_true.mp hbool _ hc; cases this
        | missing => cases hna
      unfold inferCol
      rw [if_neg (by rw [hcond₁]; exact Bool.false_ne_true), if_pos hcond₂]
      refine Eq.trans (by rw [List.map_map]) (map_id_on ?_)
      intro c hc
      cases c with
      | boolv b => cases b <;> rfl
      | num q => have := List.all_eq_true.mp hbool _ hc; cases this
      | str s => have := List.all_eq_true.mp hbool _ hc; cases this
      | missing => rfl
    · -- stable text column
      have hs₀ : ∃ s, c₀ = Cell.str s ∧ stableStr s = true := by
        cases c₀ with
        | str s =>
          exact ⟨s, rfl, by simpa [cellStrOk] using List.all_eq_true.mp hstr _ hc₀⟩
        | num q => have := List.all_eq_true.mp hstr _ hc₀; cases this
        | boolv b => have := List.all_eq_true.mp hstr _ hc₀; cases this
        | missing => exact absurd rfl hc₀m
      obtain ⟨s₀, rfl, hs₀⟩ := hs₀
      have hstable : ∀ s : String, stableStr s = true →
          isNAField s.data = false ∧ parseDec s.data = none ∧ boolToken s.data = none :=
        fun s hs => ⟨(stableStr_spec hs).1, (stableStr_spec hs).2.1,
          (stableStr_spec hs).2.2.2.1⟩
      have hfmem : printCell (Cell.str s₀)
          ∈ (cells.map printCell).filter (fun f => !isNAField f) := by
        rw [List.mem_filter]
        exact ⟨List.mem_map_of_mem _ hc₀, by simp [printCell, (hstable s₀ hs₀).1]⟩
      have hcond₁ : ((cells.map printCell).filter (fun f => !isNAField f)).all
          (fun f => (parseDec f).isSome) = false := by
        rw [List.all_eq_false]
        exact ⟨printCell (Cell.str s₀), hfmem, by simp [printCell, (hstable s₀ hs₀).2.1]⟩
      have hcond₂ : ((cells.map printCell).filter (fun f => !isNAField f)).all
          (fun f => (boolToken f).isSome) = false := by
        rw [List.all_eq_false]
        exact ⟨printCell (Cell.str s₀), hfmem, by simp [printCell, (hstable s₀ hs₀).2.2]⟩
      unfold inferCol
      rw [if_neg (by rw [hcond₁]; exact Bool.false_ne_true),
        if_neg (by rw [hcond₂]; exact Bool.false_ne_true)]
      refine Eq.trans (by rw [List.map_map]) (map_id_on ?_)
      intro c hc
      cases c with
      | str s =>
        have hs : stableStr s = true := by
          simpa [cellStrOk] using List.all_eq_true.mp hstr _ hc
        show (if isNAField s.data then Cell.missing else Cell.str (String.mk s.data))
          = Cell.str s
        rw [(hstable s hs).1]
        rfl
      | num q => have := List.all_eq_true.mp hstr _ hc; cases this
      | boolv b => have := List.all_eq_true.mp hstr _ hc; cases this
      | missing => rfl

/-- `getD` through a `map`, inside the bounds. -/
theorem getD_map {α β : Type} {l : List α} (f : α → β) {j : Nat} (hj : j < l.length)
    (d : β) (d' : α) : (l.map f).getD j d = f (l.getD j d') := by
  rw [List.getD_eq_getElem?_getD, List.getD_eq_getElem?_getD, List.getElem?_map,
    List.getElem?_eq_getElem hj]
  rfl

/-- Rebuilding a list from its indexed reads. -/
theorem range_map_getD {α : Type} (l : List α) (d : α) :
    (List.range l.length).map (fun i => l.getD i d) = l := by
  refine List.ext_getElem (by simp) ?_
  intro n h₁ h₂
  simp only [List.getElem_map, List.getElem_range]
  rw [List.getD_eq_getElem?_getD, List.getElem?_eq_getElem h₂]
  rfl

/-- Each row tuple has one cell per column. -/
theorem rowAt_length (df : DataFrame) (i : Nat) : (rowAt df i).length = df.length := by
  simp [rowAt]

/-- Every character of a joined group list is the separator or comes
from a group. -/
theorem mem_joinWith {sep : Char} {parts : List (List Char)} {x : Char} :
    x ∈ joinWith sep parts → x = sep ∨ ∃ p ∈ parts, x ∈ p := by
  induction parts with
  | nil => intro h; cases h
  | cons p ps ih =>
    cases ps with
    | nil =>
      intro h
      exact Or.inr ⟨p, by simp, h⟩
    | cons q qs =>
      intro h
      rcases List.mem_append.mp h with h | h
      · exact Or.inr ⟨p, by simp, h⟩
      · rcases List.mem_cons.mp h with h | h
        · exact Or.inl h
        · rcases ih h with h | ⟨r, hr, hx⟩
          · exact Or.inl h
          · exact Or.inr ⟨r, List.mem_cons_of_mem p hr, hx⟩

/-- A joined group list with a nonempty head group or a second group is
nonempty. -/
theorem joinWith_cons_ne_nil {sep : Char} {p : List Char} {ps : List (List Char)}
    (h : p ≠ [] ∨ ps ≠ []) : joinWith sep (p :: ps) ≠ [] := by
  cases ps with
  | nil =>
    rcases h with h | h
    · simpa [joinWith] using h
    · exact absurd rfl h
  | cons q qs => simp [joinWith]

/-- A stable non-missing cell prints to a nonempty field. -/
theorem printCell_ne_nil {c : Cell} (hm : c ≠ Cell.missing)
    (h : cellNumOk c = true ∨ cellBoolOk c = true ∨ cellStrOk c = true) :
    printCell c ≠ [] := by
  cases c with
  | num q =>
    show ratChars q ≠ []
    unfold ratChars
    by_cases hden : q.den = 1
    · rw [if_pos hden]
      unfold intChars
      by_cases hneg : q.num < 0
      · rw [if_pos hneg]; simp
      · rw [if_neg hneg]; exact natChars_ne_nil _
    · rw [if_neg hden]
      by_cases hneg : q.num < 0
      · rw [if_pos hneg]; simp
      · rw [if_neg hneg]
        unfold fracChars
        intro hnil
        rcases List.append_eq_nil.mp hnil with ⟨_, h₂⟩
        cases h₂
  | boolv b => cases b <;> decide
  | str s =>
    have hs : stableStr s = true := by
      rcases h with h | h | h
      · cases h
      · cases h
      · exact h
    have hna := (stableStr_spec hs).1
    show s.data ≠ []
    intro hd
    have hmark : isNAField s.data = true := by rw [hd]; decide
    rw [hmark] at hna
    cases hna
  | missing => exact absurd rfl hm

/-- The serialised CSV is the newline-terminated concatenation of the
header line and the row lines. -/
theorem toCsvChars_eq (df : DataFrame) :
    toCsvChars df
      = (((joinWith ',' (df.map fun c => c.name.data))
          :: (rowsOf df).map rowChars).map (· ++ ['\n'])).flatten := by
  unfold toCsvChars
  simp [List.append_assoc, Function.comp_def]

/-- Splitting newline-terminated lines recovers the lines plus a final
empty group. -/
theorem split_terminated (lines : List (List Char)) (h : ∀ l ∈ lines, '\n' ∉ l) :
    splitOnCh '\n' ((lines.map (· ++ ['\n'])).flatten) = lines ++ [[]] := by
  induction lines with
  | nil => rfl
  | cons l ls ih =>
    rw [List.map_cons, List.flatten_cons, List.append_assoc, List.singleton_append]
    have h1 : splitOnCh '\n' ('\n' :: (ls.map (· ++ ['\n'])).flatten) = [] :: (ls ++ [[]]) := by
      rw [splitOnCh_sep_cons, ih fun x hx => h x (List.mem_cons_of_mem l hx)]
    have h2 := splitOnCh_append (h l (List.mem_cons_self l ls)) _ _ _ h1
    simpa using h2

/-- Dropping blank lines removes exactly the terminating empty group. -/
theorem filter_blank (lines : List (List Char)) (h : ∀ l ∈ lines, l ≠ []) :
    (lines ++ [[]]).filter (fun l => !l.isEmpty) = lines := by
  rw [List.filter_append]
  have h2 : ([[]] : List (List Char)).filter (fun l => !l.isEmpty) = [] := rfl
  rw [h2, List.append_nil]
  refine List.filter_eq_self.mpr ?_
  intro l hl
  cases hc : l with
  | nil => exact absurd hc (h l hl)
  | cons c cs => rfl

/-- Evaluating the CSV reader once its line structure is known. -/
theorem readCsvChars_of_split {input header : List Char} {dataLines : List (List Char)}
    (hsplit : (splitOnCh '\n' input).filter (fun l => !l.isEmpty) = header :: dataLines) :
    readCsvChars input =
      if (dataLines.map (splitOnCh ',')).any
          (fun r => (splitOnCh ',' header).length < r.length) then
        Except.error "Error tokenizing data"
      else
        Except.ok ((List.range (splitOnCh ',' header).length).map fun j =>
          ⟨String.mk ((splitOnCh ',' header).getD j []),
            inferCol ((dataLines.map (splitOnCh ',')).map fun r => r.getD j [])⟩) := by
  unfold readCsvChars
  rw [hsplit]

end App
